import Mathlib

/-!
Verification development for the greenhouse-agent web dashboard
(`ui/src/js/App.js`).  The file gives a shallow embedding of the two
pieces of logic the dashboard implements:

* the metrics-text-to-display-rows transform inside the `Sensors`
  component (split on newline, trim, drop `#` comment lines, split each
  line on a single space, `Number.parseFloat(parts[1]).toFixed(2)`,
  keep only names ending in `f` or `h`), and
* the switch-client orchestration (`fetchSwitchesState`,
  `apiUpdatePinState`) and the `SwitchRow` rendering.

JavaScript strings are embedded as `List Char` (wrapped into `String`
at the interface).  JavaScript numbers are embedded exactly: a decimal
literal is converted to an exact rational (`Frac`, an unreduced
integer fraction) and then rounded to the nearest IEEE-754 binary64
value with round-to-nearest, ties-to-even — binary64 values are dyadic
rationals, so `Frac` represents every finite double exactly.
`toFixed(2)` is then evaluated on that exact value, following the
ECMAScript algorithm.  Asynchronous fetch code is embedded as a
function from the outcome of the awaited request (settled promise) to
the list of observable effects, the promise chain being linear.
-/

set_option maxRecDepth 100000

namespace Js

/-- Whitespace recognised by JavaScript `trim` / `parseFloat` (the
ASCII part of `StrWhiteSpaceChar`: space, tab, LF, VT, FF, CR;
non-ASCII Unicode space characters are not modelled). -/
def isJsSpace (c : Char) : Bool :=
  c == ' ' || c == '\t' || c == '\n' || c == '\x0b' || c == '\x0c' || c == '\r'

/-- Embedding of `String.prototype.trim`: drop leading and trailing
whitespace. -/
def jsTrimChars (cs : List Char) : List Char :=
  ((cs.dropWhile isJsSpace).reverse.dropWhile isJsSpace).reverse

/-- Embedding of `String.prototype.split` with a one-character
separator: `"".split(sep)` is `[""]`, adjacent separators produce empty
fields, and a trailing separator produces a trailing empty field. -/
def splitOnChar (sep : Char) : List Char → List (List Char)
  | [] => [[]]
  | c :: cs =>
    let r := splitOnChar sep cs
    if c == sep then [] :: r else (c :: r.headD []) :: r.tail

/-- Embedding of `String.prototype.startsWith("#")`: the first
character is `#` (false for the empty string). -/
def startsWithHash (line : List Char) : Bool :=
  match line with
  | c :: _ => c == '#'
  | [] => false

/-- An exact rational number, kept as an unreduced fraction so that
every operation is plain integer arithmetic (the denominator is
positive by construction everywhere it is built). -/
structure Frac where
  num : ℤ
  den : ℕ
deriving Repr

/-- Absolute value of a `Frac`. -/
def Frac.abs (a : Frac) : Frac := ⟨(a.num.natAbs : ℤ), a.den⟩

/-- Floor of a `Frac` (integer floor division). -/
def Frac.floor (a : Frac) : ℤ := Int.fdiv a.num a.den

/-- Multiply a `Frac` by `2 ^ k` for a possibly negative `k`. -/
def Frac.mulPow2 (a : Frac) (k : ℤ) : Frac :=
  if 0 ≤ k then ⟨a.num * (Nat.pow 2 k.toNat : ℕ), a.den⟩
  else ⟨a.num, a.den * Nat.pow 2 (-k).toNat⟩

/-- Round an exact rational to the nearest integer, ties to even
(the IEEE-754 default rounding used when a decimal literal is
converted to a binary64 value). -/
def rne (a : Frac) : ℤ :=
  let n := a.floor
  let r := a.num - n * (a.den : ℤ)
  if 2 * r < (a.den : ℤ) then n
  else if (a.den : ℤ) < 2 * r then n + 1
  else if n % 2 = 0 then n else n + 1

/-- Fuel-driven binary logarithm (structural recursion so that the
kernel can evaluate it; the fuel `n` always suffices since the
argument halves at every step). -/
def log2Aux : ℕ → ℕ → ℕ
  | 0, _ => 0
  | fuel + 1, n => if 2 ≤ n then log2Aux fuel (n / 2) + 1 else 0

/-- Floor of the base-2 logarithm of a positive natural number. -/
def natLog2 (n : ℕ) : ℕ := log2Aux n n

/-- Floor of the base-2 logarithm of a positive `Frac`: estimated from
the bit lengths of numerator and denominator, then corrected by one
exact comparison. -/
def fracFloorLog2 (q : Frac) : ℤ :=
  let a := natLog2 q.num.toNat
  let b := natLog2 q.den
  let e0 : ℤ := (a : ℤ) - (b : ℤ)
  if 0 ≤ e0 then
    if ((Nat.pow 2 e0.toNat : ℕ) : ℤ) * (q.den : ℤ) ≤ q.num then e0 else e0 - 1
  else
    if (q.den : ℤ) ≤ ((Nat.pow 2 (-e0).toNat : ℕ) : ℤ) * q.num then e0 else e0 - 1

/-- A JavaScript number as far as this client observes it: NaN, a
signed infinity, or a finite value (every finite binary64 value is a
dyadic rational, represented exactly). -/
inductive JsNum where
  | nan : JsNum
  | inf : Bool → JsNum
  | fin : Frac → JsNum
deriving Repr

/-- Round a nonnegative exact rational (with `neg` carrying the sign
of the literal) to the nearest IEEE-754 binary64 value: normal values
get a 53-bit significand, values below `2 ^ (-1022)` are subnormal
with a fixed scale of `2 ^ (-1074)`, and values rounding to `2 ^ 1024`
or above overflow to infinity. -/
def roundToDouble (neg : Bool) (q : Frac) : JsNum :=
  if q.num ≤ 0 then JsNum.fin ⟨0, 1⟩
  else
    let e := fracFloorLog2 q
    if 1024 ≤ e then JsNum.inf neg
    else if e < -1022 then
      let m := rne (q.mulPow2 1074)
      JsNum.fin ⟨if neg then -m else m, Nat.pow 2 1074⟩
    else
      let m := rne (q.mulPow2 (52 - e))
      if (((Nat.pow 2 ((1076 : ℤ) - e).toNat : ℕ) : ℤ)) ≤ m then JsNum.inf neg
      else Frac.mulPow2 ⟨if neg then -m else m, 1⟩ (e - 52) |> JsNum.fin

/-- Value of a list of decimal digit characters, most significant
first. -/
def digitsToNat (ds : List Char) : ℕ :=
  ds.foldl (fun n c => 10 * n + (c.toNat - 48)) 0

/-- Value of an ECMAScript `ExponentPart` with the leading `e`/`E`
already removed: optional sign, then digits; with no digits the
exponent contributes a factor of `10 ^ 0` (matching `parseFloat`,
which then simply does not consume the `e`). -/
def expAfterE (rest : List Char) : ℤ :=
  match rest with
  | '+' :: ds => (digitsToNat (ds.takeWhile Char.isDigit) : ℤ)
  | '-' :: ds => -(digitsToNat (ds.takeWhile Char.isDigit) : ℤ)
  | ds => (digitsToNat (ds.takeWhile Char.isDigit) : ℤ)

/-- Value of the optional `ExponentPart` at the given position. -/
def expPart (cs : List Char) : ℤ :=
  match cs with
  | 'e' :: rest => expAfterE rest
  | 'E' :: rest => expAfterE rest
  | _ => 0

/-- Exact rational value of a decimal significand (integer part
digits, fraction part digits) followed by an optional exponent part. -/
def fracOfParts (ip fp : List Char) (rest : List Char) : Frac :=
  let base : ℤ := ((digitsToNat ip * Nat.pow 10 fp.length + digitsToNat fp : ℕ) : ℤ)
  let e := expPart rest
  if 0 ≤ e then ⟨base * ((Nat.pow 10 e.toNat : ℕ) : ℤ), Nat.pow 10 fp.length⟩
  else ⟨base, Nat.pow 10 fp.length * Nat.pow 10 (-e).toNat⟩

/-- Longest-prefix parse of an unsigned `StrUnsignedDecimalLiteral`
without the `Infinity` alternative: `digits [. digits] [exp]` or
`. digits [exp]`; `none` when no prefix is a valid literal. -/
def parseDecimalFrac (cs : List Char) : Option Frac :=
  let ip := cs.takeWhile Char.isDigit
  let rest1 := cs.dropWhile Char.isDigit
  match ip, rest1 with
  | [], '.' :: rest2 =>
    let fp := rest2.takeWhile Char.isDigit
    if fp.isEmpty then none
    else some (fracOfParts [] fp (rest2.dropWhile Char.isDigit))
  | [], _ => none
  | _, '.' :: rest2 =>
    some (fracOfParts ip (rest2.takeWhile Char.isDigit) (rest2.dropWhile Char.isDigit))
  | _, _ => some (fracOfParts ip [] rest1)

/-- The characters of the `Infinity` literal. -/
def infinityChars : List Char := ['I', 'n', 'f', 'i', 'n', 'i', 't', 'y']

/-- Whether the first list is a leading segment of the second. -/
def startsWithChars : List Char → List Char → Bool
  | [], _ => true
  | _ :: _, [] => false
  | p :: ps, c :: cs => p == c && startsWithChars ps cs

/-- Parse the part of a `parseFloat` argument after sign handling:
the `Infinity` literal, or a decimal literal rounded to binary64, or
NaN when no prefix parses. -/
def parseUnsignedFloat (neg : Bool) (cs : List Char) : JsNum :=
  if startsWithChars infinityChars cs then JsNum.inf neg
  else
    match parseDecimalFrac cs with
    | none => JsNum.nan
    | some q => roundToDouble neg q

/-- Embedding of `Number.parseFloat` on the characters of its string
argument: skip leading whitespace, read an optional sign, then the
longest prefix forming a `StrDecimalLiteral`; NaN when there is
none. -/
def parseFloatChars (cs0 : List Char) : JsNum :=
  match cs0.dropWhile isJsSpace with
  | '-' :: r => parseUnsignedFloat true r
  | '+' :: r => parseUnsignedFloat false r
  | r => parseUnsignedFloat false r

/-- Decimal digit characters of a natural number, most significant
first; `natChars 0 = []` (callers pad, matching the ECMAScript
`toFixed` algorithm where `m` is the digit string of `n` and `n = 0`
gives `"0"` via padding). -/
def natDigitsAux : ℕ → ℕ → List Char
  | 0, _ => []
  | fuel + 1, n =>
    if n = 0 then [] else natDigitsAux fuel (n / 10) ++ [Char.ofNat (48 + n % 10)]

/-- Decimal digit characters of `n`, most significant first. -/
def natChars (n : ℕ) : List Char := natDigitsAux n n

/-- Pad a digit string on the left with `'0'` to length at least 3
(`f + 1` for `f = 2`), per step 9.c of ECMAScript
`Number.prototype.toFixed`. -/
def padTo3 (ds : List Char) : List Char :=
  List.replicate (3 - ds.length) '0' ++ ds

/-- Rendering of a finite value of magnitude at least `10 ^ 21`, where
`toFixed` falls back to `ToString(x)` (exponential notation).  The
digit string is taken from the exact value; an engine prints the
shortest digit string that round-trips through binary64, a
presentation detail no claim depends on. -/
def jsLargeChars (a : Frac) : List Char :=
  let ds := natChars (Frac.floor a).toNat
  let e := ds.length - 1
  let frac := ((ds.drop 1).reverse.dropWhile (fun c => c == '0')).reverse
  ds.take 1 ++ (if frac.isEmpty then [] else '.' :: frac) ++ 'e' :: '+' :: natChars e

/-- Finite branch of `Number.prototype.toFixed(2)` (ECMAScript
21.1.3.3): the sign is split off, magnitudes at least `10 ^ 21` use
`ToString`, and otherwise `n` is the integer nearest to `100 * x`
(ties to the larger `n`, i.e. `⌊100 x + 1/2⌋`), printed with a decimal
point before its last two digits. -/
def toFixed2Fin (v : Frac) : String :=
  let s : List Char := if v.num < 0 then ['-'] else []
  let a := Frac.abs v
  if ((Nat.pow 10 21 : ℕ) : ℤ) * (a.den : ℤ) ≤ a.num then String.mk (s ++ jsLargeChars a)
  else
    let n := (Int.fdiv (200 * a.num + (a.den : ℤ)) (2 * (a.den : ℤ))).toNat
    let m := padTo3 (natChars n)
    String.mk (s ++ (m.take (m.length - 2) ++ '.' :: m.drop (m.length - 2)))

/-- Embedding of `Number.prototype.toFixed(2)` on all three kinds of
JavaScript number. -/
def toFixed2 (x : JsNum) : String :=
  match x with
  | JsNum.nan => "NaN"
  | JsNum.inf true => "-Infinity"
  | JsNum.inf false => "Infinity"
  | JsNum.fin v => toFixed2Fin v

end Js

/-- A sensor display row as produced by the `Sensors` component: a
metric name and its formatted value, both strings. -/
structure MetricRow where
  name : String
  value : String
deriving DecidableEq, Repr

namespace MetricsParser

open Js

/-- The recognised metric-name suffixes, `const metric_lasts = ['f', 'h']`
in the source (a `'c'` entry is commented out there). -/
def metric_lasts : List String := ["f", "h"]

/-- Embedding of `name.substring(name.length - 1, name.length)`: the
one-character string holding the last character, or the empty string
for an empty name. -/
def lastOf (s : String) : String :=
  match s.data.getLast? with
  | none => ""
  | some c => String.mk [c]

/-- Per-line transform of the `Sensors` pipeline: split the line on a
single space, take field 0 as the name, and format
`Number.parseFloat` of field 1 with `toFixed(2)`.  A missing field 1
is JavaScript `undefined`, and `parseFloat(undefined)` is NaN.
`splitOnChar` never returns an empty list, so `headD` is exact. -/
def parseLine (line : List Char) : MetricRow :=
  let parts := splitOnChar ' ' line
  { name := String.mk (parts.headD []),
    value := toFixed2 (match parts[1]? with
                       | none => JsNum.nan
                       | some f => parseFloatChars f) }

/-- Embedding of the `metrics_list` pipeline of the `Sensors`
component: split the raw text on `"\n"`, trim each line, drop lines
starting with `#`, build a row from each remaining line, and keep only
rows whose name ends in one of `metric_lasts`. -/
def parse (metrics : String) : List MetricRow :=
  ((((splitOnChar '\n' metrics.data).map jsTrimChars).filter
      (fun line => !startsWithHash line)).map parseLine).filter
    (fun m => metric_lasts.contains (lastOf m.name))

/-- The action of the pipeline on a single source line: `none` when
the line contributes no row (comment line or filtered suffix), `some`
row otherwise.  `parse` is the `filterMap` of this function over the
split lines (proved below), which is the order-preserving statement of
the transform. -/
def lineToRow (line : List Char) : Option MetricRow :=
  let t := jsTrimChars line
  if startsWithHash t then none
  else if metric_lasts.contains (lastOf (parseLine t).name) then some (parseLine t)
  else none

/-- Whether a display string consists of a decimal point with exactly
two digit characters after it (looking from the right: digit, digit,
point). -/
def hasTwoDecimals (v : String) : Bool :=
  match v.data.reverse with
  | c2 :: c1 :: c0 :: _ => c0 == '.' && c1.isDigit && c2.isDigit
  | _ => false

end MetricsParser

/-- A switch as delivered by `GET /switches_state` and cached by the
client: pin number, display name, integer pin state, automatic-control
flag and manual-override flag. -/
structure SwitchState where
  pin_num : ℤ
  name : String
  pin_state : ℤ
  is_auto : Bool
  override_auto : Bool
deriving DecidableEq, Repr

namespace SwitchClient

/-- Embedding of `switchValue`: a pin state is "on" when it is at
least 1. -/
def switchValue (pin_state : ℤ) : Bool := 1 ≤ pin_state

/-- The override button of a `SwitchRow`, when rendered: its button
class and icon class strings. -/
structure OverrideBtnView where
  iconBtnClz : String
  iconClz : String
deriving DecidableEq, Repr

/-- The observable attributes of one rendered `SwitchRow`. -/
structure SwitchRowView where
  rowId : String
  overrideBtn : Option OverrideBtnView
  nameLabel : String
  checked : String
  toggleDisabled : Bool
  pinNumCol : ℤ
deriving DecidableEq, Repr

/-- Embedding of the `SwitchRow` component: the `checked` attribute
string, the lock/unlock icon classes, the override button rendered
only when `is_auto`, and the checkbox `disabled` attribute
`is_auto && !override_auto`. -/
def renderSwitchRow (s : SwitchState) : SwitchRowView :=
  let checked := if switchValue s.pin_state then "checked" else ""
  let iconClz := if s.is_auto && !s.override_auto then "bi bi-lock" else "bi bi-unlock"
  let iconBtnClz :=
    if s.is_auto && !s.override_auto then "btn btn-sm btn-primary btn-danger"
    else "btn btn-sm btn-primary"
  let overrideBtn :=
    if s.is_auto then some { iconBtnClz := iconBtnClz, iconClz := iconClz } else none
  { rowId := "switch_" ++ toString s.pin_num,
    overrideBtn := overrideBtn,
    nameLabel := s.name,
    checked := checked,
    toggleDisabled := s.is_auto && !s.override_auto,
    pinNumCol := s.pin_num }

/-- Alert text of `noServerAlert` (the source interpolates
`JSON.stringify(e)`; the serialised error is the argument here). -/
def noServerMsg (err : String) : String := "no server 🤷 😿 👉 " ++ err

/-- Outcome of `response.json()` on the body of a settled
`/switches_state` response: the body fails to parse as JSON (the
promise rejects, carrying a serialised `SyntaxError`), or it parses
and the `switches` property is either present with a list or absent
(JavaScript `undefined`). -/
inductive JsonResult where
  | parseFail (err : String) : JsonResult
  | parsed (sw : Option (List SwitchState)) : JsonResult
deriving DecidableEq, Repr

/-- Outcome of an awaited `fetch` of `/switches_state`: the request
rejects in transport (serialised error attached), or it resolves with
an HTTP status and a body abstracted to its `response.json()`
outcome. -/
inductive FetchOutcome where
  | reject (err : String) : FetchOutcome
  | resolve (status : ℕ) (body : JsonResult) : FetchOutcome
deriving DecidableEq, Repr

/-- Observable effects of one run of `fetchSwitchesState`: the
arguments of every `setSwitches` call performed (in order), and every
user-visible alert raised (in order). -/
structure SwitchesFetchEffect where
  setSwitchesCalls : List (Option (List SwitchState))
  alerts : List String
deriving DecidableEq, Repr

/-- Embedding of `fetchSwitchesState`: on transport rejection or a
`response.json()` rejection the single `catch` handler raises one
`noServerAlert` and `setSwitches` is never called; when the body
parses, `setSwitches(data.switches)` is called — the HTTP status is
never inspected. -/
def fetchSwitchesState (o : FetchOutcome) : SwitchesFetchEffect :=
  match o with
  | FetchOutcome.reject err =>
    { setSwitchesCalls := [], alerts := [noServerMsg err] }
  | FetchOutcome.resolve _ (JsonResult.parseFail err) =>
    { setSwitchesCalls := [], alerts := [noServerMsg err] }
  | FetchOutcome.resolve _ (JsonResult.parsed sw) =>
    { setSwitchesCalls := [sw], alerts := [] }

/-- Alert text of the `status > 299` branch of `apiUpdatePinState`. -/
def pinUpdateFailMsg (body : String) : String := "pin update failed 🤷 😿 👉 " ++ body

/-- Outcome of an awaited `fetch` whose body is read with
`data.text()`: transport rejection, or resolution with a status and
the body text. -/
inductive TextOutcome where
  | reject (err : String) : TextOutcome
  | resolve (status : ℕ) (body : String) : TextOutcome
deriving DecidableEq, Repr

/-- One observable event of `apiUpdatePinState`, in program order. -/
inductive PinEvent where
  | requested (url : String) : PinEvent
  | alerted (msg : String) : PinEvent
  | refetchSwitches : PinEvent
deriving DecidableEq, Repr

/-- Embedding of `apiUpdatePinState`: issue the request to
`/pin/output/<pin_num>/<pin_state>` under the configured host; on
transport rejection the `catch` raises `noServerAlert` (and nothing
else happens); on resolution, alert `pin update failed` with the body
text when the status exceeds 299, and in either case call
`fetchSwitchesState()` afterwards.  `host` is the environment-injected
`data_host`; console logging is not an observable effect and is
omitted. -/
def apiUpdatePinState (host : String) (s : SwitchState) (o : TextOutcome) : List PinEvent :=
  PinEvent.requested (host ++ "/pin/output/" ++ toString s.pin_num ++ "/" ++ toString s.pin_state) ::
  (match o with
   | TextOutcome.reject err => [PinEvent.alerted (noServerMsg err)]
   | TextOutcome.resolve status body =>
     (if 299 < status then [PinEvent.alerted (pinUpdateFailMsg body)] else []) ++
       [PinEvent.refetchSwitches])

end SwitchClient

section Lemmas

open Js MetricsParser

/-- A character split never produces the empty list of fields. -/
lemma splitOnChar_ne_nil (sep : Char) (cs : List Char) : splitOnChar sep cs ≠ [] := by
  cases cs with
  | nil => simp [splitOnChar]
  | cons c cs =>
    by_cases h : c == sep <;> simp [splitOnChar, h]

/-- Splitting a list that does not contain the separator yields that
list as the single field. -/
lemma splitOnChar_not_mem {sep : Char} {cs : List Char} (h : sep ∉ cs) :
    splitOnChar sep cs = [cs] := by
  induction cs with
  | nil => rfl
  | cons c cs ih =>
    have hc : ¬(c == sep) = true := by
      simp only [beq_iff_eq]
      intro hcs
      exact h (hcs ▸ List.mem_cons_self c cs)
    have hrest : sep ∉ cs := fun hm => h (List.mem_cons_of_mem c hm)
    simp [splitOnChar, hc, ih hrest]

/-- Splitting `l ++ sep :: r` where `l` avoids the separator peels off
`l` as the first field. -/
lemma splitOnChar_append_sep {sep : Char} {l : List Char} (r : List Char) (h : sep ∉ l) :
    splitOnChar sep (l ++ sep :: r) = l :: splitOnChar sep r := by
  induction l with
  | nil => simp [splitOnChar]
  | cons c l ih =>
    have hc : ¬(c == sep) = true := by
      simp only [beq_iff_eq]
      intro hcs
      exact h (hcs ▸ List.mem_cons_self c l)
    have hrest : sep ∉ l := fun hm => h (List.mem_cons_of_mem c hm)
    simp [splitOnChar, hc, ih hrest]

/-- Splitting a list that begins with the separator yields a leading
empty field. -/
lemma splitOnChar_cons_sep (sep : Char) (cs : List Char) :
    splitOnChar sep (sep :: cs) = [] :: splitOnChar sep cs := by
  simp [splitOnChar]

/-- The maps and filters of the `Sensors` pipeline collapse to one
order-preserving `filterMap` of the per-line transform. -/
lemma pipeline_eq_filterMap (ls : List (List Char)) :
    (((ls.map jsTrimChars).filter (fun line => !startsWithHash line)).map parseLine).filter
        (fun m => metric_lasts.contains (lastOf m.name)) =
      ls.filterMap lineToRow := by
  induction ls with
  | nil => rfl
  | cons l ls ih =>
    rw [List.map_cons, List.filter_cons]
    cases h1 : startsWithHash (jsTrimChars l) with
    | true =>
      have hl : lineToRow l = none := by simp [lineToRow, h1]
      rw [List.filterMap_cons_none hl]
      simp only [Bool.not_true]
      rw [if_neg (by simp)]
      exact ih
    | false =>
      simp only [Bool.not_false]
      rw [if_pos trivial, List.map_cons, List.filter_cons]
      cases h2 : metric_lasts.contains (lastOf (parseLine (jsTrimChars l)).name) with
      | true =>
        have h2m : lastOf (parseLine (jsTrimChars l)).name ∈ metric_lasts := by
          simpa using h2
        have hl : lineToRow l = some (parseLine (jsTrimChars l)) := by
          simp [lineToRow, h1, h2m]
        rw [List.filterMap_cons_some hl, if_pos rfl, ih]
      | false =>
        have h2m : lastOf (parseLine (jsTrimChars l)).name ∉ metric_lasts := by
          simpa using h2
        have hl : lineToRow l = none := by simp [lineToRow, h1, h2m]
        rw [List.filterMap_cons_none hl]
        rw [if_neg (by simp)]
        exact ih

/-- `parse` is the order-preserving `filterMap` of `lineToRow` over
the newline split of the raw text. -/
lemma parse_eq_filterMap (raw : String) :
    parse raw = (splitOnChar '\n' raw.data).filterMap lineToRow :=
  pipeline_eq_filterMap _

/-- Every character emitted by `natDigitsAux` is a decimal digit. -/
lemma natDigitsAux_digits (fuel : ℕ) : ∀ (n : ℕ), ∀ c ∈ natDigitsAux fuel n, c.isDigit = true := by
  induction fuel with
  | zero => intro n c hc; simp [natDigitsAux] at hc
  | succ fuel ih =>
    intro n c hc
    by_cases h0 : n = 0
    · simp [natDigitsAux, h0] at hc
    · simp only [natDigitsAux, if_neg h0, List.mem_append, List.mem_singleton] at hc
      rcases hc with hc | hc
      · exact ih (n / 10) c hc
      · have hlt : n % 10 < 10 := Nat.mod_lt _ (by norm_num)
        have hdig : ∀ d : ℕ, d < 10 → (Char.ofNat (48 + d)).isDigit = true := by decide
        exact hc ▸ hdig _ hlt

/-- Every character of `natChars n` is a decimal digit. -/
lemma natChars_digits (n : ℕ) : ∀ c ∈ natChars n, c.isDigit = true :=
  natDigitsAux_digits n n

/-- Padding to width 3 preserves digit-ness. -/
lemma padTo3_digits {ds : List Char} (h : ∀ c ∈ ds, c.isDigit = true) :
    ∀ c ∈ padTo3 ds, c.isDigit = true := by
  intro c hc
  simp only [padTo3, List.mem_append, List.mem_replicate] at hc
  rcases hc with ⟨_, rfl⟩ | hc
  · decide
  · exact h c hc

/-- The padded digit string has length at least 3. -/
lemma padTo3_length (ds : List Char) : 3 ≤ (padTo3 ds).length := by
  simp only [padTo3, List.length_append, List.length_replicate]
  omega

/-- A string assembled as `prefix ++ digits.take (k-2) ++ '.' ++
digits.drop (k-2)` from at least three digit characters has exactly
two digits after its decimal point. -/
lemma hasTwoDecimals_build (pre m : List Char) (h3 : 3 ≤ m.length)
    (hd : ∀ c ∈ m, c.isDigit = true) :
    hasTwoDecimals (String.mk (pre ++ (m.take (m.length - 2) ++ '.' :: m.drop (m.length - 2)))) = true := by
  have h2 : (m.drop (m.length - 2)).length = 2 := by
    rw [List.length_drop]
    omega
  obtain ⟨d1, d2, hd12⟩ := List.length_eq_two.mp h2
  have hd1 : d1.isDigit = true := hd _ (List.drop_subset _ _ (by rw [hd12]; simp))
  have hd2 : d2.isDigit = true := hd _ (List.drop_subset _ _ (by rw [hd12]; simp))
  have hrev : (pre ++ (m.take (m.length - 2) ++ '.' :: m.drop (m.length - 2))).reverse
      = d2 :: d1 :: '.' :: ((m.take (m.length - 2)).reverse ++ pre.reverse) := by
    rw [hd12]
    simp [List.reverse_append]
  simp only [hasTwoDecimals]
  rw [hrev]
  simp [hd1, hd2]

/-- Shape of every `toFixed(2)` result: a string with exactly two
digits after the decimal point, one of the non-finite renderings, or
the large-magnitude `ToString` fallback (optionally signed). -/
lemma toFixed2_shape (x : JsNum) :
    hasTwoDecimals (toFixed2 x) = true ∨ toFixed2 x = "NaN" ∨ toFixed2 x = "Infinity"
      ∨ toFixed2 x = "-Infinity"
      ∨ ∃ s a, (s = ([] : List Char) ∨ s = ['-']) ∧ toFixed2 x = String.mk (s ++ jsLargeChars a) := by
  cases x with
  | nan => simp [toFixed2]
  | inf b => cases b <;> simp [toFixed2]
  | fin v =>
    have hval : toFixed2 (JsNum.fin v) = toFixed2Fin v := rfl
    rw [hval]
    by_cases hbig : ((Nat.pow 10 21 : ℕ) : ℤ) * ((Frac.abs v).den : ℤ) ≤ (Frac.abs v).num
    · right; right; right; right
      refine ⟨if v.num < 0 then ['-'] else [], Frac.abs v, ?_, ?_⟩
      · by_cases hneg : v.num < 0
        · right; rw [if_pos hneg]
        · left; rw [if_neg hneg]
      · simp only [toFixed2Fin]
        rw [if_pos hbig]
    · left
      simp only [toFixed2Fin]
      rw [if_neg hbig]
      exact hasTwoDecimals_build _ _ (padTo3_length _) (padTo3_digits (natChars_digits _))

end Lemmas

section Claims

open Js MetricsParser SwitchClient

/-- C1 (counterexample): the spec scenario expects the row value
`"72.35"` for the input line `outside_f 72.345`, but the program does
not produce it: `72.345` is stored as the binary64 value
`72.344999999999998863…`, which `toFixed(2)` rounds to `"72.34"`. -/
theorem claim_C1_counterexample :
    parse "outside_f 72.345\n#ignored 1.0\ninside_h 55\n" ≠
      [⟨"outside_f", "72.35"⟩, ⟨"inside_h", "55.00"⟩] := by
  decide

/-- C1 (amended): parsing the raw metrics text
`"outside_f 72.345\n#ignored 1.0\ninside_h 55\n"` yields exactly the
two rows `(outside_f, "72.34")` and `(inside_h, "55.00")`, in that
order. -/
theorem claim_C1 :
    parse "outside_f 72.345\n#ignored 1.0\ninside_h 55\n" =
      [⟨"outside_f", "72.34"⟩, ⟨"inside_h", "55.00"⟩] := by
  decide

/-- C2 (counterexample): not every parsed row's value has two digits
after a decimal point — the line `temp_f x` produces the row value
`"NaN"`. -/
theorem claim_C2_counterexample :
    ¬ (∀ (raw : String), ∀ row ∈ parse raw, hasTwoDecimals row.value = true) := by
  intro h
  exact absurd (h "temp_f x" ⟨"temp_f", "NaN"⟩ (by decide)) (by decide)

/-- C2 (amended): for every raw metrics input, every parsed row's
value is a string with exactly two digits after the decimal point,
except that a second field that does not parse as a finite number
yields `"NaN"`, `"Infinity"` or `"-Infinity"`, and a magnitude of at
least `10 ^ 21` is rendered by the `ToString` fallback of `toFixed`. -/
theorem claim_C2 :
    ∀ (raw : String), ∀ row ∈ parse raw,
      hasTwoDecimals row.value = true ∨ row.value = "NaN" ∨ row.value = "Infinity"
        ∨ row.value = "-Infinity"
        ∨ ∃ s a, (s = ([] : List Char) ∨ s = ['-'])
            ∧ row.value = String.mk (s ++ Js.jsLargeChars a) := by
  intro raw row hrow
  have hrow2 : row ∈ ((((splitOnChar '\n' raw.data).map jsTrimChars).filter
      (fun line => !startsWithHash line)).map parseLine).filter
        (fun m => metric_lasts.contains (lastOf m.name)) := hrow
  obtain ⟨line, _, hline⟩ := List.mem_map.mp (List.mem_filter.mp hrow2).1
  subst hline
  exact toFixed2_shape _

/-- C2 (witness at the line `x_f 1.5`, whose row value is `"1.50"`). -/
theorem claim_C2_witness :
    hasTwoDecimals (MetricRow.mk "x_f" "1.50").value = true
      ∨ (MetricRow.mk "x_f" "1.50").value = "NaN"
      ∨ (MetricRow.mk "x_f" "1.50").value = "Infinity"
      ∨ (MetricRow.mk "x_f" "1.50").value = "-Infinity"
      ∨ ∃ s a, (s = ([] : List Char) ∨ s = ['-'])
          ∧ (MetricRow.mk "x_f" "1.50").value = String.mk (s ++ Js.jsLargeChars a) :=
  claim_C2 "x_f 1.5" ⟨"x_f", "1.50"⟩ (by decide)

/-- C3 (counterexample): a `/switches_state` response with the non-2xx
status 500 whose body parses as JSON raises no alert and does call
`setSwitches`, contradicting the claim that every non-2xx response
signals one alert and leaves the cached list unchanged. -/
theorem claim_C3_counterexample :
    ¬ ((fetchSwitchesState (FetchOutcome.resolve 500 (JsonResult.parsed (some [])))).alerts.length = 1
       ∧ (fetchSwitchesState
            (FetchOutcome.resolve 500 (JsonResult.parsed (some [])))).setSwitchesCalls = []) := by
  decide

/-- C3 (amended): on transport rejection, or when the response body
fails to parse as JSON (the usual shape of an error response), exactly
one user-visible alert is raised and `setSwitches` is never called, so
the cached list is unchanged; the HTTP status itself is never
inspected — any response whose body parses as JSON is processed like a
success, replacing the list with `data.switches`. -/
theorem claim_C3 :
    (∀ o : FetchOutcome,
        ((∃ e, o = FetchOutcome.reject e)
          ∨ ∃ st e, o = FetchOutcome.resolve st (JsonResult.parseFail e)) →
        (fetchSwitchesState o).alerts.length = 1 ∧ (fetchSwitchesState o).setSwitchesCalls = [])
    ∧ ∀ (st : ℕ) (sw : Option (List SwitchState)),
        fetchSwitchesState (FetchOutcome.resolve st (JsonResult.parsed sw)) =
          { setSwitchesCalls := [sw], alerts := [] } := by
  constructor
  · rintro o (⟨e, rfl⟩ | ⟨st, e, rfl⟩) <;> simp [fetchSwitchesState]
  · intro st sw
    rfl

/-- C3 (witness at a concrete transport rejection). -/
theorem claim_C3_witness :
    (fetchSwitchesState (FetchOutcome.reject "ECONNREFUSED")).alerts.length = 1
      ∧ (fetchSwitchesState (FetchOutcome.reject "ECONNREFUSED")).setSwitchesCalls = [] :=
  claim_C3.1 (FetchOutcome.reject "ECONNREFUSED") (Or.inl ⟨"ECONNREFUSED", rfl⟩)

/-- C4: for every switch argument and every resolved response,
`apiUpdatePinState` first issues the request to
`/pin/output/<pin_num>/<pin_state>` under the configured host, its
last action is the re-fetch of the switch list (for every status), and
when the status exceeds 299 it additionally raises the pin-update
alert carrying the response body. -/
theorem claim_C4 :
    ∀ (host : String) (s : SwitchState) (status : ℕ) (body : String),
      (apiUpdatePinState host s (TextOutcome.resolve status body)).head? =
        some (PinEvent.requested
          (host ++ "/pin/output/" ++ toString s.pin_num ++ "/" ++ toString s.pin_state))
      ∧ (apiUpdatePinState host s (TextOutcome.resolve status body)).getLast? =
          some PinEvent.refetchSwitches
      ∧ (299 < status →
          PinEvent.alerted (pinUpdateFailMsg body) ∈
            apiUpdatePinState host s (TextOutcome.resolve status body)) := by
  intro host s status body
  by_cases h : 299 < status <;> simp [apiUpdatePinState, h]

/-- C4 (witness: pin 3 set to 1 with a failing 500 response). -/
theorem claim_C4_witness :
    PinEvent.alerted (pinUpdateFailMsg "boom") ∈
      apiUpdatePinState "http://api" ⟨3, "fan", 1, false, false⟩
        (TextOutcome.resolve 500 "boom") :=
  (claim_C4 "http://api" ⟨3, "fan", 1, false, false⟩ 500 "boom").2.2 (by norm_num)

/-- C5: the rendered toggle is disabled exactly when `is_auto` is true
and `override_auto` is false, it is enabled exactly when `!is_auto ||
override_auto`, and the override button is rendered exactly when
`is_auto` is true. -/
theorem claim_C5 :
    ∀ s : SwitchState,
      ((renderSwitchRow s).toggleDisabled = true ↔ s.is_auto = true ∧ s.override_auto = false)
      ∧ ((renderSwitchRow s).toggleDisabled = false ↔ s.is_auto = false ∨ s.override_auto = true)
      ∧ ((renderSwitchRow s).overrideBtn.isSome = true ↔ s.is_auto = true) := by
  intro s
  obtain ⟨pn, nm, ps, ia, oa⟩ := s
  cases ia <;> cases oa <;> simp [renderSwitchRow]

/-- C6: every parsed row derives from some source line whose trimmed
form does not start with `#` — comment lines contribute no row. -/
theorem claim_C6 :
    ∀ (raw : String), ∀ row ∈ parse raw,
      ∃ line ∈ splitOnChar '\n' raw.data,
        startsWithHash (jsTrimChars line) = false ∧ row = parseLine (jsTrimChars line) := by
  intro raw row hrow
  rw [parse_eq_filterMap] at hrow
  obtain ⟨line, hline, hr⟩ := List.mem_filterMap.mp hrow
  refine ⟨line, hline, ?_⟩
  by_cases h1 : startsWithHash (jsTrimChars line) = true
  · simp only [lineToRow, h1] at hr
    simp at hr
  · have h1f : startsWithHash (jsTrimChars line) = false := by
      cases h : startsWithHash (jsTrimChars line)
      · rfl
      · exact absurd h h1
    refine ⟨h1f, ?_⟩
    simp only [lineToRow] at hr
    rw [if_neg (by simp [h1f])] at hr
    split at hr
    · exact (Option.some.inj hr).symm
    · exact absurd hr (by simp)

/-- C6 (witness at the one-line input `a_f 1`). -/
theorem claim_C6_witness :
    ∃ line ∈ splitOnChar '\n' ("a_f 1" : String).data,
      startsWithHash (jsTrimChars line) = false
      ∧ (MetricRow.mk "a_f" "1.00") = parseLine (jsTrimChars line) :=
  claim_C6 "a_f 1" ⟨"a_f", "1.00"⟩ (by decide)

/-- C7: every parsed row's name ends in `f` or `h`; the empty input
parses to the empty row list; and the parse is the order-preserving
`filterMap` of the per-line transform over the newline split, so rows
appear in the order of their source lines. -/
theorem claim_C7 :
    (∀ (raw : String), ∀ row ∈ parse raw,
        ∃ c, row.name.data.getLast? = some c ∧ (c = 'f' ∨ c = 'h'))
    ∧ parse "" = []
    ∧ ∀ raw : String, parse raw = (splitOnChar '\n' raw.data).filterMap lineToRow := by
  refine ⟨?_, by decide, parse_eq_filterMap⟩
  intro raw row hrow
  have hrow2 : row ∈ ((((splitOnChar '\n' raw.data).map jsTrimChars).filter
      (fun line => !startsWithHash line)).map parseLine).filter
        (fun m => metric_lasts.contains (lastOf m.name)) := hrow
  have hc := (List.mem_filter.mp hrow2).2
  have hmem : lastOf row.name ∈ metric_lasts := by simpa using hc
  simp only [metric_lasts, List.mem_cons, List.mem_singleton] at hmem
  cases hgl : row.name.data.getLast? with
  | none =>
    rw [lastOf, hgl] at hmem
    rcases hmem with h | h
    · exact absurd h (by decide)
    · rcases h with h | h
      · exact absurd h (by decide)
      · exact absurd h (by simp at h)
  | some c =>
    refine ⟨c, rfl, ?_⟩
    rw [lastOf, hgl] at hmem
    rcases hmem with h | h
    · left
      have h2 : [c] = ['f'] := congrArg String.data h
      simpa using h2
    · rcases h with h | h
      · right
        have h2 : [c] = ['h'] := congrArg String.data h
        simpa using h2
      · simp at h

/-- C7 (witness at the line `b_h 2`). -/
theorem claim_C7_witness :
    ∃ c, (MetricRow.mk "b_h" "2.00").name.data.getLast? = some c ∧ (c = 'f' ∨ c = 'h') :=
  claim_C7.1 "b_h 2" ⟨"b_h", "2.00"⟩ (by decide)

/-- C8: the parse is deterministic — applied twice to the same raw
text (two equal inputs), it returns identical row sequences; the
embedding is a pure function of the raw text, with no hidden state. -/
theorem claim_C8 :
    ∀ raw1 raw2 : String, raw1 = raw2 → parse raw1 = parse raw2 := by
  intro r1 r2 h
  rw [h]

/-- C8 (witness: two runs on the scenario line agree). -/
theorem claim_C8_witness :
    parse "outside_f 72.345" = parse "outside_f 72.345" :=
  claim_C8 "outside_f 72.345" "outside_f 72.345" rfl

/-- C9: a line whose name and value are separated by two (or more)
spaces parses field 1 as the empty string between the two spaces, so
the row's value is `"NaN"`: splitting is on a single space character,
not on whitespace runs. -/
theorem claim_C9 :
    ∀ (nm vl : List Char),
      ' ' ∉ nm → '\n' ∉ nm → '\n' ∉ vl →
      startsWithHash nm = false →
      metric_lasts.contains (lastOf (String.mk nm)) = true →
      jsTrimChars (nm ++ ' ' :: ' ' :: vl) = nm ++ ' ' :: ' ' :: vl →
      parse (String.mk (nm ++ ' ' :: ' ' :: vl)) = [⟨String.mk nm, "NaN"⟩] := by
  intro nm vl hsp hn1 hn2 hh hlast htrim
  have hnl : '\n' ∉ nm ++ ' ' :: ' ' :: vl := by
    simp [List.mem_append, hn1, hn2]
  have hsplit : splitOnChar '\n' (nm ++ ' ' :: ' ' :: vl) = [nm ++ ' ' :: ' ' :: vl] :=
    splitOnChar_not_mem hnl
  have hhL : startsWithHash (nm ++ ' ' :: ' ' :: vl) = false := by
    cases nm with
    | nil => rfl
    | cons c t => exact hh
  have hparts : splitOnChar ' ' (nm ++ ' ' :: ' ' :: vl) = nm :: [] :: splitOnChar ' ' vl := by
    rw [show nm ++ ' ' :: ' ' :: vl = nm ++ ' ' :: (' ' :: vl) from rfl,
      splitOnChar_append_sep (' ' :: vl) hsp, splitOnChar_cons_sep]
  have hnan : toFixed2 (parseFloatChars []) = "NaN" := rfl
  have hrowL : parseLine (nm ++ ' ' :: ' ' :: vl) = ⟨String.mk nm, "NaN"⟩ := by
    simp [parseLine, hparts, hnan]
  have hlastm : lastOf (String.mk nm) ∈ metric_lasts := by simpa using hlast
  have hltr : lineToRow (nm ++ ' ' :: ' ' :: vl) = some ⟨String.mk nm, "NaN"⟩ := by
    simp [lineToRow, htrim, hhL, hrowL, hlastm]
  rw [parse_eq_filterMap]
  rw [show (String.mk (nm ++ ' ' :: ' ' :: vl)).data = nm ++ ' ' :: ' ' :: vl from rfl]
  rw [hsplit, List.filterMap_cons_some hltr]
  rfl

/-- C9 (witness at the line `temp_f␣␣72.0`). -/
theorem claim_C9_witness :
    parse (String.mk ("temp_f".data ++ ' ' :: ' ' :: "72.0".data)) =
      [⟨String.mk "temp_f".data, "NaN"⟩] :=
  claim_C9 "temp_f".data "72.0".data (by decide) (by decide) (by decide) (by decide)
    (by decide) (by decide)

/-- C10: the suffix filter is case-sensitive — a one-line input whose
first field ends in an uppercase `F` or `H` contributes no row at
all. -/
theorem claim_C10 :
    ∀ (raw : String), '\n' ∉ raw.data →
      (lastOf (String.mk ((splitOnChar ' ' (jsTrimChars raw.data)).headD [])) = "F"
        ∨ lastOf (String.mk ((splitOnChar ' ' (jsTrimChars raw.data)).headD [])) = "H") →
      parse raw = [] := by
  intro raw hnl hFH
  rw [parse_eq_filterMap, splitOnChar_not_mem hnl]
  have hname : (parseLine (jsTrimChars raw.data)).name
      = String.mk ((splitOnChar ' ' (jsTrimChars raw.data)).headD []) := rfl
  have hcon : metric_lasts.contains (lastOf (parseLine (jsTrimChars raw.data)).name) = false := by
    rw [hname]
    rcases hFH with h | h <;> rw [h] <;> decide
  have hltr : lineToRow raw.data = none := by
    simp only [lineToRow]
    by_cases h1 : startsWithHash (jsTrimChars raw.data) = true
    · rw [if_pos h1]
    · rw [if_neg h1, if_neg (by rw [hcon]; simp)]
  rw [List.filterMap_cons_none hltr]
  rfl

/-- C10 (witness: the line `outside_F 72.0` parses to no rows). -/
theorem claim_C10_witness :
    parse "outside_F 72.0" = [] :=
  claim_C10 "outside_F 72.0" (by decide) (Or.inl (by decide))

end Claims
